import Mathlib

-- Verification of the SolarDate module (src/solar_date.rs) of the
-- chinese-lunisolar-calendar crate.
--
-- Strings are embedded as `List Char`; the Rust code indexes strings by UTF-8
-- byte positions (`s.find`, `&s[i..]`, `&s[..i]` with the 3-byte-wide CJK unit
-- markers), so positions are modelled in bytes via each character's UTF-8 size.

-- ## Byte-position string primitives

/-- UTF-8 encoded size in bytes of a character, as Rust's `char::len_utf8`. -/
def csize (c : Char) : Nat :=
  if c.toNat < 0x80 then 1
  else if c.toNat < 0x800 then 2
  else if c.toNat < 0x10000 then 3
  else 4

/-- UTF-8 byte length of a string, as Rust's `str::len`. -/
def byteLen (l : List Char) : Nat := (l.map csize).sum

/-- Byte index of the first occurrence of character `t`, as Rust's `str::find`
with a single-character pattern. -/
def findByteIdx (t : Char) : List Char → Option Nat
  | [] => none
  | c :: cs => if c = t then some 0 else (findByteIdx t cs).map (fun i => i + csize c)

/-- Characters contained in the first `n` bytes, as Rust's `&s[..n]`
(the call sites only ever slice at character boundaries). -/
def takeBytes : Nat → List Char → List Char
  | _, [] => []
  | n, c :: cs => if csize c ≤ n then c :: takeBytes (n - csize c) cs else []

/-- Characters after the first `n` bytes, as Rust's `&s[n..]`
(the call sites only ever slice at character boundaries). -/
def dropBytes : Nat → List Char → List Char
  | _, [] => []
  | n, c :: cs => if n = 0 then c :: cs else dropBytes (n - csize c) cs

/-- Unicode White_Space property, as used by Rust's `str::trim`
(notably including the full-width ideographic space U+3000). -/
def isRustWhitespace (c : Char) : Bool :=
  decide ((0x9 ≤ c.toNat ∧ c.toNat ≤ 0xD) ∨ c.toNat = 0x20 ∨ c.toNat = 0x85 ∨
    c.toNat = 0xA0 ∨ c.toNat = 0x1680 ∨ (0x2000 ≤ c.toNat ∧ c.toNat ≤ 0x200A) ∨
    c.toNat = 0x2028 ∨ c.toNat = 0x2029 ∨ c.toNat = 0x202F ∨ c.toNat = 0x205F ∨
    c.toNat = 0x3000)

/-- Remove leading and trailing whitespace, as Rust's `str::trim`. -/
def trim (l : List Char) : List Char :=
  ((l.dropWhile isRustWhitespace).reverse.dropWhile isRustWhitespace).reverse

-- ## Decimal digits and Chinese numerals

/-- Decimal digit lists, most significant first, with explicit fuel so that the
definition is structurally recursive. -/
def natDigitsGo : Nat → Nat → List Nat
  | 0, n => [n]
  | f + 1, n => if n < 10 then [n] else natDigitsGo f (n / 10) ++ [n % 10]

/-- Decimal digits of `n`, most significant first (`0` gives `[0]`). -/
def natDigits (n : Nat) : List Nat := natDigitsGo n n

/-- Chinese numeral characters for the decimal digits 0 to 9. -/
def chineseDigitChars : List Char := ['〇', '一', '二', '三', '四', '五', '六', '七', '八', '九']

/-- Chinese numeral character of a decimal digit. -/
def chineseDigitChar (d : Nat) : Char :=
  match d with
  | 0 => '〇' | 1 => '一' | 2 => '二' | 3 => '三' | 4 => '四'
  | 5 => '五' | 6 => '六' | 7 => '七' | 8 => '八' | _ => '九'

/-- Numeric value of a Chinese numeral digit character. -/
def chineseDigitVal (c : Char) : Nat :=
  if c = '〇' then 0 else if c = '一' then 1 else if c = '二' then 2
  else if c = '三' then 3 else if c = '四' then 4 else if c = '五' then 5
  else if c = '六' then 6 else if c = '七' then 7 else if c = '八' then 8 else 9

/-- Whether a character is one of the ten Chinese numeral digit characters. -/
def isChineseDigit (c : Char) : Bool := chineseDigitChars.contains c

/-- ASCII digit characters. -/
def arabicDigitChars : List Char := ['0', '1', '2', '3', '4', '5', '6', '7', '8', '9']

/-- ASCII digit character of a decimal digit. -/
def arabicDigitChar (d : Nat) : Char :=
  match d % 10 with
  | 0 => '0' | 1 => '1' | 2 => '2' | 3 => '3' | 4 => '4'
  | 5 => '5' | 6 => '6' | 7 => '7' | 8 => '8' | _ => '9'

/-- Whether a character is an ASCII digit. -/
def isAsciiDigit (c : Char) : Bool := decide (48 ≤ c.toNat ∧ c.toNat ≤ 57)

/-- Parse a non-empty all-ASCII-digit string as a natural number. -/
def parseAsciiNat (l : List Char) : Option Nat :=
  match l with
  | [] => none
  | _ :: _ =>
    if l.all isAsciiDigit then
      some (l.foldl (fun a c => a * 10 + (c.toNat - 48)) 0)
    else none

/-- Chinese numeral (in the 1 to 31 style used for months and days: 五, 十,
十五, 二十, 二十一, ...) of a small natural number. -/
def smallNumeral (n : Nat) : List Char :=
  if n < 10 then [chineseDigitChar n]
  else if n = 10 then ['十']
  else if n < 20 then ['十', chineseDigitChar (n % 10)]
  else if n % 10 = 0 then [chineseDigitChar (n / 10), '十']
  else [chineseDigitChar (n / 10), '十', chineseDigitChar (n % 10)]

/-- Parse a Chinese numeral of the small-number style produced by
`smallNumeral`. -/
def parseChineseSmall (l : List Char) : Option Nat :=
  match l with
  | [c] =>
    if c = '十' then some 10
    else if isChineseDigit c then some (chineseDigitVal c) else none
  | ['十', c] => if isChineseDigit c then some (10 + chineseDigitVal c) else none
  | [c, '十'] => if isChineseDigit c then some (chineseDigitVal c * 10) else none
  | [c1, '十', c2] =>
    if isChineseDigit c1 && isChineseDigit c2 then
      some (chineseDigitVal c1 * 10 + chineseDigitVal c2)
    else none
  | _ => none

-- ## The Year / Month / Day primitives (external collaborators of the module)

/-- Solar year, an unsigned 16-bit-range integer. -/
abbrev SolarYear := Nat

/-- Solar month, in range 1 to 12 once validated. -/
abbrev SolarMonth := Nat

/-- Solar day, in range 1 to 31 once validated. -/
abbrev SolarDay := Nat

/-- Modelled from the spec: the Year primitive's construction from a raw `u16`
(every `u16` is a valid year, so it is total). -/
def SolarYear.from_u16 (y : Nat) : SolarYear := y

/-- Modelled from the spec: the Year primitive's raw-value accessor. -/
def SolarYear.to_u16 (y : SolarYear) : Nat := y

/-- Modelled from the spec: validated construction of a month from a raw
integer, accepting exactly the range 1 to 12. -/
def SolarMonth.from_u8 (m : Nat) : Option SolarMonth :=
  if 1 ≤ m ∧ m ≤ 12 then some m else none

/-- Modelled from the spec: the Month primitive's raw-value accessor. -/
def SolarMonth.to_u8 (m : SolarMonth) : Nat := m

/-- Modelled from the spec: validated construction of a day from a raw
integer, accepting exactly the raw range 1 to 31. -/
def SolarDay.from_u8 (d : Nat) : Option SolarDay :=
  if 1 ≤ d ∧ d ≤ 31 then some d else none

/-- Modelled from the spec: the Day primitive's raw-value accessor. -/
def SolarDay.to_u8 (d : SolarDay) : Nat := d

/-- Modelled from the spec: the Year primitive's Chinese-numeral writer, which
renders the year digit by digit (2021 becomes 二〇二一). -/
def SolarYear.to_chinese_string (y : SolarYear) : List Char :=
  (natDigits y).map chineseDigitChar

/-- Modelled from the spec: the Year primitive's textual parser, accepting both
the Arabic-numeral and the digit-wise Chinese-numeral forms of a year in the
`u16` range. -/
def SolarYear.from_str (l : List Char) : Option SolarYear :=
  match parseAsciiNat l with
  | some n => if n ≤ 65535 then some n else none
  | none =>
    match l with
    | [] => none
    | _ :: _ =>
      if l.all isChineseDigit then
        if l.foldl (fun a c => a * 10 + chineseDigitVal c) 0 ≤ 65535 then
          some (l.foldl (fun a c => a * 10 + chineseDigitVal c) 0)
        else none
      else none

/-- Modelled from the spec: the Month primitive's display string, which embeds
its own unit character (一月, ..., 十二月). -/
def SolarMonth.to_str (m : SolarMonth) : List Char := smallNumeral m ++ ['月']

/-- Modelled from the spec: the Day primitive's display string
(一, ..., 三十一). -/
def SolarDay.to_str (d : SolarDay) : List Char := smallNumeral d

/-- Modelled from the spec: the Month primitive's textual parser, accepting a
month numeral (Arabic or Chinese) with an optional trailing unit character. -/
def SolarMonth.from_str (l : List Char) : Option SolarMonth :=
  let t := if l.getLast? = some '月' then l.dropLast else l
  match parseAsciiNat t with
  | some n => if 1 ≤ n ∧ n ≤ 12 then some n else none
  | none =>
    match parseChineseSmall t with
    | some n => if 1 ≤ n ∧ n ≤ 12 then some n else none
    | none => none

/-- Modelled from the spec: the Day primitive's textual parser, accepting a day
numeral in Arabic or Chinese form. -/
def SolarDay.from_str (l : List Char) : Option SolarDay :=
  match parseAsciiNat l with
  | some n => if 1 ≤ n ∧ n ≤ 31 then some n else none
  | none =>
    match parseChineseSmall l with
    | some n => if 1 ≤ n ∧ n ≤ 31 then some n else none
    | none => none

/-- Modelled from the spec: Gregorian leap-year test (the spec requires year
2000 to have a February 29 and years 1900 and 2001 not to). -/
def is_leap_solar_year (y : Nat) : Bool :=
  decide ((y % 4 = 0 ∧ y % 100 ≠ 0) ∨ y % 400 = 0)

/-- Modelled from the spec: the external days-in-month function, leap-year
aware. -/
def days_in_a_solar_month (y : SolarYear) (m : SolarMonth) : Nat :=
  if m = 2 then (if is_leap_solar_year y then 29 else 28)
  else if m = 4 ∨ m = 6 ∨ m = 9 ∨ m = 11 then 30
  else 31

-- ## The SolarDate value type and its operations (from src/solar_date.rs)

/-- Error enumeration of `SolarDate` parsing, from src/solar_date.rs. -/
inductive SolarDateParseError where
  | OutOfRange
  | IncorrectYear
  | IncorrectMonth
  | IncorrectDay
deriving DecidableEq

/-- A solar (Gregorian) calendar date, from src/solar_date.rs. The fields hold
the `SolarYear`, `SolarMonth` and `SolarDay` primitives, all of which are
natural-number wrappers. -/
structure SolarDate where
  solar_year : Nat
  solar_month : Nat
  solar_day : Nat
deriving DecidableEq

/-- Validity invariant of a constructed `SolarDate` (spec section 3): year in
the `u16` range, month in 1 to 12, day in 1 to the actual day count. -/
abbrev SolarDate.Valid (sd : SolarDate) : Prop :=
  sd.solar_year ≤ 65535 ∧ 1 ≤ sd.solar_month ∧ sd.solar_month ≤ 12 ∧
    1 ≤ sd.solar_day ∧ sd.solar_day ≤ days_in_a_solar_month sd.solar_year sd.solar_month

/-- Construction from year, month, day primitives, from
`SolarDate::from_solar_year_month_day`. -/
def SolarDate.from_solar_year_month_day (y : SolarYear) (m : SolarMonth) (d : SolarDay) :
    Except SolarDateParseError SolarDate :=
  if d > days_in_a_solar_month y m then .error .IncorrectDay
  else .ok ⟨y, m, d⟩

/-- Construction from raw numbers, from `SolarDate::from_ymd`. The `none`
branch of the day primitive returns `IncorrectMonth`, exactly as the source
does. -/
def SolarDate.from_ymd (year month day : Nat) : Except SolarDateParseError SolarDate :=
  match SolarMonth.from_u8 month with
  | none => .error .IncorrectMonth
  | some m =>
    match SolarDay.from_u8 day with
    | none => .error .IncorrectMonth
    | some d => SolarDate.from_solar_year_month_day (SolarYear.from_u16 year) m d

/-- Marker lookup used by `SolarDate::from_str` for the year and month fields:
the named unit character first, the full-width space as fallback. -/
def findMarker (t : Char) (s : List Char) : Option Nat :=
  match findByteIdx t s with
  | some i => some i
  | none => findByteIdx '　' s

/-- Strip of the optional trailing day-unit character in `SolarDate::from_str`
(`ends_with` then a slice dropping the last 3 bytes). -/
def stripDayUnit (l : List Char) : List Char :=
  if l.getLast? = some '日' then takeBytes (byteLen l - 3) l else l

/-- Parsing of the Chinese-language textual form, from `SolarDate::from_str`. -/
def SolarDate.from_str (s : List Char) : Except SolarDateParseError SolarDate :=
  match findMarker '年' s with
  | none => .error .IncorrectYear
  | some yi =>
    match SolarYear.from_str (trim (takeBytes yi s)) with
    | none => .error .IncorrectYear
    | some y =>
      match findMarker '月' (dropBytes (yi + 3) s) with
      | none => .error .IncorrectMonth
      | some mi =>
        match SolarMonth.from_str (trim (takeBytes (mi + 3) (dropBytes (yi + 3) s))) with
        | none => .error .IncorrectMonth
        | some m =>
          match SolarDay.from_str (stripDayUnit (trim (dropBytes (mi + 3) (dropBytes (yi + 3) s)))) with
          | none => .error .IncorrectDay
          | some d => SolarDate.from_solar_year_month_day y m d

/-- Rendering to the Chinese-language string, from
`SolarDate::to_chinese_string`. -/
def SolarDate.to_chinese_string (sd : SolarDate) : List Char :=
  SolarYear.to_chinese_string sd.solar_year ++ ['年'] ++
    SolarMonth.to_str sd.solar_month ++ SolarDay.to_str sd.solar_day ++ ['日']

/-- Left zero-padding to a minimum width, as Rust's `{:04}` / `{:02}` format
specifiers. -/
def padZeros (w : Nat) (l : List Char) : List Char :=
  List.replicate (w - l.length) '0' ++ l

/-- Decimal digit characters of a natural number. -/
def natDecimalChars (n : Nat) : List Char := (natDigits n).map arabicDigitChar

/-- Value denoted by a zero-padded ASCII decimal digit string; used to state
what the fields of the numeric rendering denote. -/
def digitsVal (l : List Char) : Nat := l.foldl (fun a c => a * 10 + (c.toNat - 48)) 0

/-- Rendering to the numeric yyyy-mm-dd string, from `SolarDate::to_string`
(format string `"{:04}-{:02}-{:02}"`). -/
def SolarDate.to_string (sd : SolarDate) : List Char :=
  padZeros 4 (natDecimalChars (SolarYear.to_u16 sd.solar_year)) ++ ['-'] ++
    padZeros 2 (natDecimalChars (SolarMonth.to_u8 sd.solar_month)) ++ ['-'] ++
    padZeros 2 (natDecimalChars (SolarDay.to_u8 sd.solar_day))

/-- Default stringification, from the `Display` implementation, which writes
`to_chinese_string`. -/
def SolarDate.display (sd : SolarDate) : List Char := sd.to_chinese_string

/-- Year accessor, from `SolarDate::get_solar_year`. -/
def SolarDate.get_solar_year (sd : SolarDate) : SolarYear := sd.solar_year

/-- Month accessor, from `SolarDate::get_solar_month`. -/
def SolarDate.get_solar_month (sd : SolarDate) : SolarMonth := sd.solar_month

/-- Day accessor, from `SolarDate::get_solar_day`. -/
def SolarDate.get_solar_day (sd : SolarDate) : SolarDay := sd.solar_day

-- ## The external naive calendar date (chrono's NaiveDate)

/-- Modelled from the spec: the external generic calendar-date type, carrying a
signed year and the month and day accessors the module consumes. -/
structure NaiveDate where
  year : Int
  month : Nat
  day : Nat
deriving DecidableEq

/-- Modelled from the spec: Gregorian leap-year test over signed years, for the
external date type's calendrical validity. -/
def naive_is_leap (y : Int) : Bool :=
  decide ((y % 4 = 0 ∧ y % 100 ≠ 0) ∨ y % 400 = 0)

/-- Modelled from the spec: days in a month of the external date type. -/
def naive_days_in_month (y : Int) (m : Nat) : Nat :=
  if m = 2 then (if naive_is_leap y then 29 else 28)
  else if m = 4 ∨ m = 6 ∨ m = 9 ∨ m = 11 then 30
  else 31

/-- Modelled from the spec: the external type guarantees a calendrically valid
date. -/
abbrev NaiveDate.Valid (nd : NaiveDate) : Prop :=
  1 ≤ nd.month ∧ nd.month ≤ 12 ∧ 1 ≤ nd.day ∧
    nd.day ≤ naive_days_in_month nd.year nd.month

/-- Conversion from the external date type, from `SolarDate::from_naive_date`.
The source unwraps the month and day constructors; an (unreachable) unwrap
failure is modelled by the outer `none`. -/
def SolarDate.from_naive_date (nd : NaiveDate) :
    Option (Except SolarDateParseError SolarDate) :=
  if nd.year < 0 ∨ (65535 : Int) < nd.year then some (.error .OutOfRange)
  else
    match SolarMonth.from_u8 nd.month, SolarDay.from_u8 nd.day with
    | some m, some d => some (.ok ⟨nd.year.toNat, m, d⟩)
    | _, _ => none

/-- Conversion to the external date type, from `SolarDate::to_naive_date`
(a pure projection). -/
def SolarDate.to_naive_date (sd : SolarDate) : NaiveDate :=
  ⟨(SolarYear.to_u16 sd.solar_year : Int), SolarMonth.to_u8 sd.solar_month,
    SolarDay.to_u8 sd.solar_day⟩

-- ## The reading of from_str asserted by the spec's edge-case note

/-- Modelled from the spec: the variant of `from_str` in which the day field,
like the year and month fields, is located by searching for its unit character
and then the full-width-space fallback. The spec's edge-case note asserts the
parser behaves this way for all three fields; the source performs no search for
the day field. -/
def from_str_claim (s : List Char) : Except SolarDateParseError SolarDate :=
  match findMarker '年' s with
  | none => .error .IncorrectYear
  | some yi =>
    match SolarYear.from_str (trim (takeBytes yi s)) with
    | none => .error .IncorrectYear
    | some y =>
      match findMarker '月' (dropBytes (yi + 3) s) with
      | none => .error .IncorrectMonth
      | some mi =>
        match SolarMonth.from_str (trim (takeBytes (mi + 3) (dropBytes (yi + 3) s))) with
        | none => .error .IncorrectMonth
        | some m =>
          match findMarker '日' (dropBytes (mi + 3) (dropBytes (yi + 3) s)) with
          | none => .error .IncorrectDay
          | some di =>
            match SolarDay.from_str (trim (takeBytes di (dropBytes (mi + 3) (dropBytes (yi + 3) s)))) with
            | none => .error .IncorrectDay
            | some d => SolarDate.from_solar_year_month_day y m d

-- ## Byte-position lemmas

theorem csize_pos (c : Char) : 1 ≤ csize c := by
  unfold csize
  split_ifs <;> omega

theorem byteLen_cons (c : Char) (l : List Char) : byteLen (c :: l) = csize c + byteLen l := by
  simp [byteLen]

theorem byteLen_append (l1 l2 : List Char) : byteLen (l1 ++ l2) = byteLen l1 + byteLen l2 := by
  simp [byteLen]

theorem findByteIdx_append_cons (t : Char) (l1 l2 : List Char) (h : t ∉ l1) :
    findByteIdx t (l1 ++ t :: l2) = some (byteLen l1) := by
  induction l1 with
  | nil => simp [findByteIdx, byteLen]
  | cons c cs ih =>
    have hc : ¬ c = t := fun e => h (by simp [e])
    have ih2 := ih (fun hm => h (List.mem_cons_of_mem _ hm))
    simp only [List.cons_append, findByteIdx, if_neg hc, List.append_eq, ih2,
      Option.map_some', byteLen_cons]
    rw [Nat.add_comm]

theorem takeBytes_append (l1 l2 : List Char) : takeBytes (byteLen l1) (l1 ++ l2) = l1 := by
  induction l1 with
  | nil =>
    cases l2 with
    | nil => rfl
    | cons c cs =>
      have := csize_pos c
      show takeBytes 0 (c :: cs) = []
      simp only [takeBytes]
      rw [if_neg (by omega)]
  | cons c cs ih =>
    show takeBytes (byteLen (c :: cs)) (c :: (cs ++ l2)) = c :: cs
    simp only [takeBytes, byteLen_cons]
    rw [if_pos (by omega), Nat.add_sub_cancel_left]
    rw [ih]

theorem dropBytes_append (l1 l2 : List Char) : dropBytes (byteLen l1) (l1 ++ l2) = l2 := by
  induction l1 with
  | nil =>
    cases l2 with
    | nil => rfl
    | cons c cs => simp [dropBytes, byteLen]
  | cons c cs ih =>
    have := csize_pos c
    show dropBytes (byteLen (c :: cs)) (c :: (cs ++ l2)) = l2
    simp only [dropBytes, byteLen_cons]
    rw [if_neg (by omega), Nat.add_sub_cancel_left]
    rw [ih]

theorem dropWhile_eq_of_all {p : Char → Bool} {l : List Char} (h : ∀ c ∈ l, p c = false) :
    l.dropWhile p = l := by
  cases l with
  | nil => rfl
  | cons c cs => simp [List.dropWhile_cons, h c (by simp)]

theorem trim_eq_of_all {l : List Char} (h : ∀ c ∈ l, isRustWhitespace c = false) :
    trim l = l := by
  unfold trim
  rw [dropWhile_eq_of_all h]
  rw [dropWhile_eq_of_all (fun c hc => h c (List.mem_reverse.mp hc))]
  exact List.reverse_reverse l

-- ## Decimal digit lemmas

theorem natDigitsGo_fuel : ∀ f1 f2 n, n ≤ f1 → n ≤ f2 → natDigitsGo f1 n = natDigitsGo f2 n := by
  intro f1
  induction f1 with
  | zero =>
    intro f2 n h1 _
    have hn : n = 0 := by omega
    subst hn
    cases f2 with
    | zero => rfl
    | succ k => simp [natDigitsGo]
  | succ f ih =>
    intro f2 n h1 h2
    cases f2 with
    | zero =>
      have hn : n = 0 := by omega
      subst hn
      simp [natDigitsGo]
    | succ k =>
      simp only [natDigitsGo]
      by_cases h10 : n < 10
      · rw [if_pos h10, if_pos h10]
      · rw [if_neg h10, if_neg h10]
        have hdiv : n / 10 < n := Nat.div_lt_self (by omega) (by omega)
        rw [ih k (n / 10) (by omega) (by omega)]

theorem natDigits_eq (n : Nat) :
    natDigits n = if n < 10 then [n] else natDigits (n / 10) ++ [n % 10] := by
  unfold natDigits
  cases n with
  | zero => simp [natDigitsGo]
  | succ k =>
    show natDigitsGo (k + 1) (k + 1) = _
    simp only [natDigitsGo]
    by_cases h10 : k + 1 < 10
    · rw [if_pos h10, if_pos h10]
    · rw [if_neg h10, if_neg h10]
      have hdiv : (k + 1) / 10 < k + 1 := Nat.div_lt_self (by omega) (by omega)
      rw [natDigitsGo_fuel k ((k + 1) / 10) ((k + 1) / 10) (by omega) (le_refl _)]

theorem natDigits_ne_nil (n : Nat) : natDigits n ≠ [] := by
  rw [natDigits_eq]
  split <;> simp

theorem natDigits_lt_ten (n : Nat) : ∀ d ∈ natDigits n, d < 10 := by
  induction n using Nat.strong_induction_on with
  | _ n ih =>
    rw [natDigits_eq]
    by_cases h10 : n < 10
    · rw [if_pos h10]
      intro d hd
      simp at hd
      omega
    · rw [if_neg h10]
      intro d hd
      rw [List.mem_append] at hd
      rcases hd with hd | hd
      · exact ih (n / 10) (Nat.div_lt_self (by omega) (by omega)) d hd
      · simp at hd
        omega

theorem natDigits_foldl (n : Nat) : ∀ a : Nat,
    (natDigits n).foldl (fun a d => a * 10 + d) a = a * 10 ^ (natDigits n).length + n := by
  induction n using Nat.strong_induction_on with
  | _ n ih =>
    intro a
    rw [natDigits_eq]
    by_cases h10 : n < 10
    · rw [if_pos h10]
      simp [pow_one]
    · rw [if_neg h10]
      rw [List.foldl_append]
      simp only [List.foldl_cons, List.foldl_nil]
      rw [ih (n / 10) (Nat.div_lt_self (by omega) (by omega)) a]
      rw [List.length_append]
      simp only [List.length_singleton]
      rw [pow_succ]
      have hcalc : (a * 10 ^ (natDigits (n / 10)).length + n / 10) * 10 + n % 10 =
          a * (10 ^ (natDigits (n / 10)).length * 10) + (10 * (n / 10) + n % 10) := by ring
      rw [hcalc, Nat.div_add_mod]

theorem natDigits_length_le (n : Nat) : ∀ k, 1 ≤ k → n < 10 ^ k → (natDigits n).length ≤ k := by
  induction n using Nat.strong_induction_on with
  | _ n ih =>
    intro k hk hnk
    rw [natDigits_eq]
    by_cases h10 : n < 10
    · rw [if_pos h10]
      simpa using hk
    · rw [if_neg h10]
      rw [List.length_append]
      have hk2 : 2 ≤ k := by
        by_contra hc
        have hk1 : k = 1 := by omega
        subst hk1
        rw [pow_one] at hnk
        omega
      have hpow : (10 : Nat) ^ k = 10 ^ (k - 1) * 10 := by
        conv_lhs => rw [show k = (k - 1) + 1 by omega]
        rw [pow_succ]
      have hdiv : n / 10 < 10 ^ (k - 1) := by
        rw [Nat.div_lt_iff_lt_mul (by omega)]
        rw [← hpow]
        exact hnk
      have hlen := ih (n / 10) (Nat.div_lt_self (by omega) (by omega)) (k - 1) (by omega) hdiv
      simp only [List.length_singleton]
      omega

theorem natDigits_length_ge (n : Nat) : ∀ k, 10 ^ k ≤ n → k + 1 ≤ (natDigits n).length := by
  induction n using Nat.strong_induction_on with
  | _ n ih =>
    intro k hk
    rw [natDigits_eq]
    by_cases h10 : n < 10
    · rw [if_pos h10]
      simp only [List.length_singleton]
      by_contra hc
      have hk1 : 1 ≤ k := by omega
      have hpow : (10 : Nat) ^ 1 ≤ 10 ^ k := Nat.pow_le_pow_right (by omega) hk1
      rw [pow_one] at hpow
      omega
    · rw [if_neg h10]
      rw [List.length_append]
      simp only [List.length_singleton]
      rcases Nat.eq_zero_or_pos k with hk0 | hk1
      · subst hk0
        omega
      · have hpow : (10 : Nat) ^ (k - 1) * 10 = 10 ^ k := by
          conv_rhs => rw [show k = (k - 1) + 1 by omega]
          rw [pow_succ]
        have hdiv10 : 10 ^ (k - 1) ≤ n / 10 := by
          rw [Nat.le_div_iff_mul_le (by omega)]
          omega
        have hrec := ih (n / 10) (Nat.div_lt_self (by omega) (by omega)) (k - 1) hdiv10
        omega

-- ## Character facts

theorem chineseDigitChar_facts (d : Nat) :
    isRustWhitespace (chineseDigitChar d) = false ∧ chineseDigitChar d ≠ '年' ∧
      chineseDigitChar d ≠ '月' ∧ chineseDigitChar d ≠ '日' ∧
      isAsciiDigit (chineseDigitChar d) = false ∧ isChineseDigit (chineseDigitChar d) = true := by
  unfold chineseDigitChar
  split <;> decide

theorem arabicDigitChar_lt_128 (d : Nat) : (arabicDigitChar d).toNat < 128 := by
  unfold arabicDigitChar
  split <;> decide

theorem chv_chineseDigitChar : ∀ d, d < 10 → chineseDigitVal (chineseDigitChar d) = d := by decide

theorem av_arabicDigitChar : ∀ d, d < 10 → (arabicDigitChar d).toNat - 48 = d := by decide

theorem smallNumeral_facts (n : Nat) : ∀ c ∈ smallNumeral n,
    isRustWhitespace c = false ∧ c ≠ '年' ∧ c ≠ '月' ∧ c ≠ '日' := by
  have kit : ∀ k : Nat, isRustWhitespace (chineseDigitChar k) = false ∧
      chineseDigitChar k ≠ '年' ∧ chineseDigitChar k ≠ '月' ∧ chineseDigitChar k ≠ '日' :=
    fun k => ⟨(chineseDigitChar_facts k).1, (chineseDigitChar_facts k).2.1,
      (chineseDigitChar_facts k).2.2.1, (chineseDigitChar_facts k).2.2.2.1⟩
  intro c hc
  unfold smallNumeral at hc
  split_ifs at hc
  · simp at hc
    subst hc
    exact kit n
  · simp at hc
    subst hc
    decide
  · simp at hc
    rcases hc with rfl | rfl
    · decide
    · exact kit (n % 10)
  · simp at hc
    rcases hc with rfl | rfl
    · exact kit (n / 10)
    · decide
  · simp at hc
    rcases hc with rfl | rfl | rfl
    · exact kit (n / 10)
    · decide
    · exact kit (n % 10)

theorem yearChinese_facts (y : Nat) : ∀ c ∈ SolarYear.to_chinese_string y,
    isRustWhitespace c = false ∧ c ≠ '年' ∧ c ≠ '月' ∧ c ≠ '日' ∧
      isAsciiDigit c = false ∧ isChineseDigit c = true := by
  intro c hc
  unfold SolarYear.to_chinese_string at hc
  rw [List.mem_map] at hc
  obtain ⟨d, _, rfl⟩ := hc
  exact chineseDigitChar_facts d

-- ## Numeral round-trip lemmas

theorem foldl_digits_map (f : Nat → Char) (v : Char → Nat)
    (hfv : ∀ d, d < 10 → v (f d) = d) :
    ∀ ds : List Nat, (∀ d ∈ ds, d < 10) → ∀ a : Nat,
      (ds.map f).foldl (fun a c => a * 10 + v c) a = ds.foldl (fun a d => a * 10 + d) a := by
  intro ds
  induction ds with
  | nil => intro _ a; rfl
  | cons d ds ih =>
    intro h a
    simp only [List.map_cons, List.foldl_cons]
    rw [hfv d (h d (by simp))]
    exact ih (fun x hx => h x (by simp [hx])) _

theorem year_chinese_roundtrip (y : Nat) (hy : y ≤ 65535) :
    SolarYear.from_str (SolarYear.to_chinese_string y) = some y := by
  obtain ⟨c, cs, hcons⟩ : ∃ c cs, SolarYear.to_chinese_string y = c :: cs := by
    cases h : SolarYear.to_chinese_string y with
    | nil =>
      have hne := natDigits_ne_nil y
      unfold SolarYear.to_chinese_string at h
      rw [List.map_eq_nil_iff] at h
      exact absurd h hne
    | cons c cs => exact ⟨c, cs, rfl⟩
  have hfacts := yearChinese_facts y
  have hascii : parseAsciiNat (SolarYear.to_chinese_string y) = none := by
    have hc : isAsciiDigit c = false := (hfacts c (by rw [hcons]; simp)).2.2.2.2.1
    rw [hcons]
    simp [parseAsciiNat, List.all_cons, hc]
  have hall : (SolarYear.to_chinese_string y).all isChineseDigit = true := by
    rw [List.all_eq_true]
    intro x hx
    exact (hfacts x hx).2.2.2.2.2
  have hfold : (SolarYear.to_chinese_string y).foldl (fun a c => a * 10 + chineseDigitVal c) 0 = y := by
    unfold SolarYear.to_chinese_string
    rw [foldl_digits_map chineseDigitChar chineseDigitVal chv_chineseDigitChar
      (natDigits y) (natDigits_lt_ten y) 0]
    simpa using natDigits_foldl y 0
  rw [hcons] at hascii hall hfold
  rw [hcons]
  unfold SolarYear.from_str
  rw [hascii]
  simp only [hall, hfold, if_true]
  rw [if_pos hy]

theorem month_str_roundtrip : ∀ m : Nat, m < 13 → 1 ≤ m →
    SolarMonth.from_str (SolarMonth.to_str m) = some m := by decide

theorem day_str_roundtrip : ∀ d : Nat, d < 32 → 1 ≤ d →
    SolarDay.from_str (SolarDay.to_str d) = some d := by decide

-- ## Day-count bounds

theorem days_in_a_solar_month_le_31 (y m : Nat) : days_in_a_solar_month y m ≤ 31 := by
  unfold days_in_a_solar_month
  split_ifs <;> omega

theorem naive_days_in_month_le_31 (y : Int) (m : Nat) : naive_days_in_month y m ≤ 31 := by
  unfold naive_days_in_month
  split_ifs <;> omega

-- ## Round-trip support for the Chinese rendering

theorem to_chinese_string_shape (y m d : Nat) :
    SolarDate.to_chinese_string ⟨y, m, d⟩ =
      SolarYear.to_chinese_string y ++
        '年' :: (smallNumeral m ++ '月' :: (smallNumeral d ++ ['日'])) := by
  simp [SolarDate.to_chinese_string, SolarMonth.to_str, SolarDay.to_str, List.append_assoc]

theorem from_str_to_chinese_string (y m d : Nat) (hy : y ≤ 65535)
    (hm1 : 1 ≤ m) (hm2 : m ≤ 12) (hd1 : 1 ≤ d) (hd31 : d ≤ 31)
    (hdays : d ≤ days_in_a_solar_month y m) :
    SolarDate.from_str (SolarDate.to_chinese_string ⟨y, m, d⟩) = .ok ⟨y, m, d⟩ := by
  have hYCf := yearChinese_facts y
  have hSMf := smallNumeral_facts m
  have hSDf := smallNumeral_facts d
  rw [to_chinese_string_shape]
  have e1 : findMarker '年'
      (SolarYear.to_chinese_string y ++
        '年' :: (smallNumeral m ++ '月' :: (smallNumeral d ++ ['日']))) =
      some (byteLen (SolarYear.to_chinese_string y)) := by
    unfold findMarker
    rw [findByteIdx_append_cons '年' _ _ (fun hmem => ((hYCf _ hmem).2.1) rfl)]
  have e2 : SolarYear.from_str (trim (takeBytes (byteLen (SolarYear.to_chinese_string y))
      (SolarYear.to_chinese_string y ++
        '年' :: (smallNumeral m ++ '月' :: (smallNumeral d ++ ['日']))))) = some y := by
    rw [takeBytes_append]
    rw [trim_eq_of_all (fun c hc => (hYCf c hc).1)]
    exact year_chinese_roundtrip y hy
  have hlen3 : byteLen (SolarYear.to_chinese_string y ++ ['年']) =
      byteLen (SolarYear.to_chinese_string y) + 3 := by
    rw [byteLen_append]
    rfl
  have e3 : dropBytes (byteLen (SolarYear.to_chinese_string y) + 3)
      (SolarYear.to_chinese_string y ++
        '年' :: (smallNumeral m ++ '月' :: (smallNumeral d ++ ['日']))) =
      smallNumeral m ++ '月' :: (smallNumeral d ++ ['日']) := by
    have hassoc : SolarYear.to_chinese_string y ++
        '年' :: (smallNumeral m ++ '月' :: (smallNumeral d ++ ['日'])) =
        (SolarYear.to_chinese_string y ++ ['年']) ++
          (smallNumeral m ++ '月' :: (smallNumeral d ++ ['日'])) := by
      simp
    rw [hassoc, ← hlen3, dropBytes_append]
  have e4 : findMarker '月' (smallNumeral m ++ '月' :: (smallNumeral d ++ ['日'])) =
      some (byteLen (smallNumeral m)) := by
    unfold findMarker
    rw [findByteIdx_append_cons '月' _ _ (fun hmem => ((hSMf _ hmem).2.2.1) rfl)]
  have hlenm3 : byteLen (smallNumeral m ++ ['月']) = byteLen (smallNumeral m) + 3 := by
    rw [byteLen_append]
    rfl
  have hwsm : ∀ c ∈ smallNumeral m ++ ['月'], isRustWhitespace c = false := by
    intro c hc
    rw [List.mem_append] at hc
    rcases hc with hc | hc
    · exact (hSMf c hc).1
    · simp at hc
      subst hc
      decide
  have hwsd : ∀ c ∈ smallNumeral d ++ ['日'], isRustWhitespace c = false := by
    intro c hc
    rw [List.mem_append] at hc
    rcases hc with hc | hc
    · exact (hSDf c hc).1
    · simp at hc
      subst hc
      decide
  have e5 : SolarMonth.from_str (trim (takeBytes (byteLen (smallNumeral m) + 3)
      (smallNumeral m ++ '月' :: (smallNumeral d ++ ['日'])))) = some m := by
    have hassoc : smallNumeral m ++ '月' :: (smallNumeral d ++ ['日']) =
        (smallNumeral m ++ ['月']) ++ (smallNumeral d ++ ['日']) := by
      simp
    have hmon : SolarMonth.from_str (SolarMonth.to_str m) = some m :=
      month_str_roundtrip m (by omega) hm1
    rw [hassoc, ← hlenm3, takeBytes_append, trim_eq_of_all hwsm]
    exact hmon
  have e6 : SolarDay.from_str (stripDayUnit (trim (dropBytes (byteLen (smallNumeral m) + 3)
      (smallNumeral m ++ '月' :: (smallNumeral d ++ ['日']))))) = some d := by
    have hassoc : smallNumeral m ++ '月' :: (smallNumeral d ++ ['日']) =
        (smallNumeral m ++ ['月']) ++ (smallNumeral d ++ ['日']) := by
      simp
    rw [hassoc, ← hlenm3, dropBytes_append, trim_eq_of_all hwsd]
    unfold stripDayUnit
    rw [if_pos (by rw [List.getLast?_concat])]
    rw [byteLen_append, show byteLen ['日'] = 3 from rfl, Nat.add_sub_cancel]
    rw [takeBytes_append]
    exact day_str_roundtrip d (by omega) hd1
  have e7 : SolarDate.from_solar_year_month_day y m d = .ok ⟨y, m, d⟩ := by
    have hnd : ¬ d > days_in_a_solar_month y m := by omega
    unfold SolarDate.from_solar_year_month_day
    rw [if_neg hnd]
  simp only [SolarDate.from_str, e1, e2, e3, e4, e5, e6, e7]

-- ## Support for the numeric rendering

theorem padZeros_length (w : Nat) (l : List Char) :
    (padZeros w l).length = (w - l.length) + l.length := by
  simp [padZeros]

theorem natDecimalChars_length (n : Nat) :
    (natDecimalChars n).length = (natDigits n).length := by
  simp [natDecimalChars]

theorem foldl_zero_replicate (k : Nat) :
    (List.replicate k '0').foldl (fun a c => a * 10 + (c.toNat - 48)) 0 = 0 := by
  induction k with
  | zero => rfl
  | succ j ih =>
    rw [List.replicate_succ, List.foldl_cons]
    simpa using ih

theorem foldl_arabic_digits (ds : List Nat) (hds : ∀ d ∈ ds, d < 10) : ∀ a : Nat,
    (ds.map arabicDigitChar).foldl (fun a c => a * 10 + (c.toNat - 48)) a =
      ds.foldl (fun a d => a * 10 + d) a := by
  induction ds with
  | nil => intro a; rfl
  | cons d ds ih =>
    intro a
    simp only [List.map_cons, List.foldl_cons]
    rw [av_arabicDigitChar d (hds d (by simp))]
    exact ih (fun x hx => hds x (by simp [hx])) _

theorem digitsVal_pad_decimal (w n : Nat) : digitsVal (padZeros w (natDecimalChars n)) = n := by
  unfold digitsVal padZeros natDecimalChars
  rw [List.foldl_append, foldl_zero_replicate]
  rw [foldl_arabic_digits (natDigits n) (natDigits_lt_ten n) 0]
  simpa using natDigits_foldl n 0

theorem padZeros_decimal_ascii (w n : Nat) :
    ∀ c ∈ padZeros w (natDecimalChars n), c.toNat < 128 := by
  intro c hc
  unfold padZeros natDecimalChars at hc
  rw [List.mem_append] at hc
  rcases hc with hc | hc
  · rw [List.mem_replicate] at hc
    rcases hc with ⟨_, rfl⟩
    decide
  · rw [List.mem_map] at hc
    obtain ⟨d, _, rfl⟩ := hc
    exact arabicDigitChar_lt_128 d

theorem to_string_ascii (sd : SolarDate) : ∀ c ∈ SolarDate.to_string sd, c.toNat < 128 := by
  intro c hc
  unfold SolarDate.to_string at hc
  simp only [List.append_assoc, List.mem_append] at hc
  rcases hc with hc | hc | hc | hc | hc
  · exact padZeros_decimal_ascii 4 _ c hc
  · simp at hc
    subst hc
    decide
  · exact padZeros_decimal_ascii 2 _ c hc
  · simp at hc
    subst hc
    decide
  · exact padZeros_decimal_ascii 2 _ c hc

theorem mem_day_to_chinese (sd : SolarDate) : '日' ∈ SolarDate.to_chinese_string sd := by
  unfold SolarDate.to_chinese_string
  simp

-- ## Support for the marker-lookup claims

theorem findMarker_unit_first (t : Char) (s : List Char) (i : Nat)
    (h : findByteIdx t s = some i) : findMarker t s = some i := by
  unfold findMarker
  rw [h]

theorem from_str_no_marker (s : List Char) (h1 : findByteIdx '年' s = none)
    (h2 : findByteIdx '　' s = none) : SolarDate.from_str s = .error .IncorrectYear := by
  unfold SolarDate.from_str findMarker
  rw [h1, h2]

-- ## Claim theorems

/-- Claim C1: for every (year, month, day) triple with month and day accepted
by the Month and Day primitives, if day > days_in_month(year, month) then
construction via `from_solar_year_month_day` (and hence `from_ymd`) fails with
`IncorrectDay`, and if day ≤ days_in_month(year, month) then construction
succeeds and the accessors return exactly the inputs. -/
theorem C1_construction_validity : ∀ y m d : Nat, y ≤ 65535 →
    SolarMonth.from_u8 m = some m → SolarDay.from_u8 d = some d →
    (d > days_in_a_solar_month y m →
      SolarDate.from_solar_year_month_day y m d = .error .IncorrectDay ∧
      SolarDate.from_ymd y m d = .error .IncorrectDay) ∧
    (d ≤ days_in_a_solar_month y m →
      SolarDate.from_solar_year_month_day y m d = .ok ⟨y, m, d⟩ ∧
      SolarDate.from_ymd y m d = .ok ⟨y, m, d⟩ ∧
      SolarDate.get_solar_year ⟨y, m, d⟩ = y ∧
      SolarDate.get_solar_month ⟨y, m, d⟩ = m ∧
      SolarDate.get_solar_day ⟨y, m, d⟩ = d) := by
  intro y m d _ hm hd
  constructor
  · intro hgt
    have h1 : SolarDate.from_solar_year_month_day y m d = .error .IncorrectDay := by
      unfold SolarDate.from_solar_year_month_day
      rw [if_pos hgt]
    refine ⟨h1, ?_⟩
    simp only [SolarDate.from_ymd, hm, hd]
    exact h1
  · intro hle
    have hng : ¬ d > days_in_a_solar_month y m := by omega
    have h1 : SolarDate.from_solar_year_month_day y m d = .ok ⟨y, m, d⟩ := by
      unfold SolarDate.from_solar_year_month_day
      rw [if_neg hng]
    refine ⟨h1, ?_, rfl, rfl, rfl⟩
    simp only [SolarDate.from_ymd, hm, hd]
    exact h1

/-- Witness for claim C1: April 2021 has 30 days, so day 31 is rejected with
`IncorrectDay` by both constructors. -/
theorem C1_witness :
    SolarDate.from_solar_year_month_day 2021 4 31 = .error .IncorrectDay ∧
    SolarDate.from_ymd 2021 4 31 = .error .IncorrectDay :=
  (C1_construction_validity 2021 4 31 (by decide) (by decide) (by decide)).1 (by decide)

/-- Claim C2: when the month is accepted but the day is rejected by the Day
primitive's raw-range validation, `from_ymd` fails with `IncorrectMonth` (the
month error code), exactly as the source does. -/
theorem C2_raw_day_month_error : ∀ y m d : Nat, y ≤ 65535 →
    SolarMonth.from_u8 m = some m → SolarDay.from_u8 d = none →
    SolarDate.from_ymd y m d = .error .IncorrectMonth := by
  intro y m d _ hm hd
  simp only [SolarDate.from_ymd, hm, hd]

/-- Witness for claim C2: day 32 is outside the raw range, and the error is the
month error code. -/
theorem C2_witness : SolarDate.from_ymd 2021 5 32 = .error .IncorrectMonth :=
  C2_raw_day_month_error 2021 5 32 (by decide) (by decide) (by decide)

/-- Claim C3: for every valid `SolarDate`, parsing the Chinese-language
rendering round-trips to an equal value. -/
theorem C3_chinese_roundtrip : ∀ sd : SolarDate, sd.Valid →
    SolarDate.from_str (SolarDate.to_chinese_string sd) = .ok sd := by
  intro sd h
  obtain ⟨y, m, d⟩ := sd
  obtain ⟨hy, hm1, hm2, hd1, hd2⟩ := h
  exact from_str_to_chinese_string y m d hy hm1 hm2 hd1
    (le_trans hd2 (days_in_a_solar_month_le_31 y m)) hd2

/-- Witness for claim C3: the round trip at 2021-10-15. -/
theorem C3_witness :
    SolarDate.from_str (SolarDate.to_chinese_string ⟨2021, 10, 15⟩) = .ok ⟨2021, 10, 15⟩ :=
  C3_chinese_roundtrip ⟨2021, 10, 15⟩ (by decide)

/-- Counterexample for claim C4: the source's day field performs no
marker search at all (it only strips a trailing day-unit character), so on
an input whose day portion has the day-unit character in the middle it
differs from the claimed search-based reading formalised in `from_str_claim`:
the source fails with `IncorrectDay` where a day-marker search would
succeed. -/
theorem C4_counterexample :
    SolarDate.from_str ("2021年10月1日5".toList) = .error .IncorrectDay ∧
    from_str_claim ("2021年10月1日5".toList) = .ok ⟨2021, 10, 1⟩ :=
  ⟨rfl, rfl⟩

/-- Claim C4 (amended): for the year and month fields the named unit character
is searched before the full-width-space fallback (the day field performs no
marker search; it only strips an optional trailing day-unit character), and an
input containing neither the year-unit character nor a full-width space fails
with `IncorrectYear`. -/
theorem C4_marker_lookup :
    (∀ (t : Char) (s : List Char) (i : Nat),
      findByteIdx t s = some i → findMarker t s = some i) ∧
    (∀ s : List Char, findByteIdx '年' s = none → findByteIdx '　' s = none →
      SolarDate.from_str s = .error .IncorrectYear) ∧
    SolarDate.from_str ("　2021年10月15日".toList) = .ok ⟨2021, 10, 15⟩ ∧
    SolarDate.from_str ("2021年　10月15日".toList) = .ok ⟨2021, 10, 15⟩ :=
  ⟨findMarker_unit_first, from_str_no_marker, rfl, rfl⟩

/-- Witness for claim C4: the unit character is preferred when present, and an
input with no year marker and no full-width space fails with the year error. -/
theorem C4_witness : findMarker '年' ("2021年".toList) = some 4 ∧
    SolarDate.from_str ("2021-10-15".toList) = .error .IncorrectYear :=
  ⟨C4_marker_lookup.1 '年' ("2021年".toList) 4 rfl,
    C4_marker_lookup.2.1 ("2021-10-15".toList) rfl rfl⟩

/-- Claim C5: conversion from the external naive date fails with `OutOfRange`
exactly when the year is negative or exceeds 65535; otherwise it succeeds and
the components equal the external date's year, month and day. -/
theorem C5_from_naive_range : ∀ nd : NaiveDate, nd.Valid →
    ((nd.year < 0 ∨ 65535 < nd.year) →
      SolarDate.from_naive_date nd = some (.error .OutOfRange)) ∧
    (0 ≤ nd.year → nd.year ≤ 65535 →
      SolarDate.from_naive_date nd = some (.ok ⟨nd.year.toNat, nd.month, nd.day⟩) ∧
      (nd.year.toNat : Int) = nd.year) := by
  intro nd hv
  obtain ⟨h1, h2, h3, h4⟩ := hv
  constructor
  · intro hr
    unfold SolarDate.from_naive_date
    rw [if_pos hr]
  · intro ha hb
    have hnr : ¬(nd.year < 0 ∨ (65535 : Int) < nd.year) := by omega
    have hmu : SolarMonth.from_u8 nd.month = some nd.month := by
      unfold SolarMonth.from_u8
      rw [if_pos ⟨h1, h2⟩]
    have hdu : SolarDay.from_u8 nd.day = some nd.day := by
      unfold SolarDay.from_u8
      rw [if_pos ⟨h3, le_trans h4 (naive_days_in_month_le_31 nd.year nd.month)⟩]
    refine ⟨?_, Int.toNat_of_nonneg ha⟩
    unfold SolarDate.from_naive_date
    rw [if_neg hnr]
    simp only [hmu, hdu]

/-- Witness for claim C5: year 0 succeeds. -/
theorem C5_witness :
    SolarDate.from_naive_date ⟨0, 1, 1⟩ = some (.ok ⟨(0 : Int).toNat, 1, 1⟩) ∧
    (((0 : Int).toNat : Int) = (0 : Int)) :=
  (C5_from_naive_range ⟨0, 1, 1⟩ (by decide)).2 (by decide) (by decide)

/-- Claim C6 (counterexample): the numeric rendering is only minimum-width
zero-padded, so the valid date with year 12345 renders with a 5-digit year,
not the claimed 4-digit `YYYY-MM-DD` shape. -/
theorem C6_counterexample :
    SolarDate.Valid ⟨12345, 1, 1⟩ ∧
    SolarDate.to_string ⟨12345, 1, 1⟩ = "12345-01-01".toList ∧
    (SolarDate.to_string ⟨12345, 1, 1⟩).length ≠ 10 :=
  ⟨by decide, rfl, by decide⟩

/-- Claim C6 (amended): the numeric rendering is `year-month-day` with each
field zero-padded to a minimum width of 4, 2 and 2 — the year field is exactly
4 digits whenever the year is at most 9999, and exactly 5 digits for every
valid year above 9999 — the fields denote exactly the stored components, and
year=5, month=3, day=7 renders as "0005-03-07". -/
theorem C6_numeric_format : (∀ sd : SolarDate, sd.Valid →
    ∃ yp mp dp : List Char,
      SolarDate.to_string sd = yp ++ '-' :: (mp ++ '-' :: dp) ∧
      4 ≤ yp.length ∧ (sd.solar_year ≤ 9999 → yp.length = 4) ∧
      (9999 < sd.solar_year → yp.length = 5) ∧
      mp.length = 2 ∧ dp.length = 2 ∧
      digitsVal yp = sd.solar_year ∧ digitsVal mp = sd.solar_month ∧
      digitsVal dp = sd.solar_day) ∧
    SolarDate.to_string ⟨5, 3, 7⟩ = "0005-03-07".toList := by
  constructor
  · intro sd hv
    obtain ⟨y, m, d⟩ := sd
    obtain ⟨hy, hm1, hm2, hd1, hd2⟩ := hv
    have hy2 : y ≤ 65535 := hy
    have hm2a : m ≤ 12 := hm2
    have hd31 : d ≤ 31 := le_trans hd2 (days_in_a_solar_month_le_31 y m)
    refine ⟨padZeros 4 (natDecimalChars y), padZeros 2 (natDecimalChars m),
      padZeros 2 (natDecimalChars d), ?_, ?_, ?_, ?_, ?_, ?_,
      digitsVal_pad_decimal 4 y, digitsVal_pad_decimal 2 m, digitsVal_pad_decimal 2 d⟩
    · simp [SolarDate.to_string, SolarYear.to_u16, SolarMonth.to_u8, SolarDay.to_u8,
        List.append_assoc]
    · rw [padZeros_length]
      omega
    · intro h9999
      have h9999a : y ≤ 9999 := h9999
      have hpow : (10 : Nat) ^ 4 = 10000 := by norm_num
      have hlen := natDigits_length_le y 4 (by omega) (by rw [hpow]; omega)
      rw [padZeros_length, natDecimalChars_length]
      omega
    · intro hgt
      have hgta : 9999 < y := hgt
      have hpow4 : (10 : Nat) ^ 4 = 10000 := by norm_num
      have hpow5 : (10 : Nat) ^ 5 = 100000 := by norm_num
      have hle := natDigits_length_le y 5 (by omega) (by rw [hpow5]; omega)
      have hge := natDigits_length_ge y 4 (by rw [hpow4]; omega)
      rw [padZeros_length, natDecimalChars_length]
      omega
    · have hpow : (10 : Nat) ^ 2 = 100 := by norm_num
      have hlen := natDigits_length_le m 2 (by omega) (by rw [hpow]; omega)
      rw [padZeros_length, natDecimalChars_length]
      omega
    · have hpow : (10 : Nat) ^ 2 = 100 := by norm_num
      have hlen := natDigits_length_le d 2 (by omega) (by rw [hpow]; omega)
      rw [padZeros_length, natDecimalChars_length]
      omega
  · rfl

/-- Witness for claim C6: the decomposition at year=5, month=3, day=7. -/
theorem C6_witness : ∃ yp mp dp : List Char,
    SolarDate.to_string ⟨5, 3, 7⟩ = yp ++ '-' :: (mp ++ '-' :: dp) ∧
    4 ≤ yp.length ∧ ((5 : Nat) ≤ 9999 → yp.length = 4) ∧
    (9999 < (5 : Nat) → yp.length = 5) ∧
    mp.length = 2 ∧ dp.length = 2 ∧
    digitsVal yp = 5 ∧ digitsVal mp = 3 ∧ digitsVal dp = 7 :=
  C6_numeric_format.1 ⟨5, 3, 7⟩ (by decide)

/-- Claim C7: `from_str` parses "2021年10月15日" and its Chinese-numeral
equivalent "二〇二一年十月十五日" to year=2021, month=10, day=15, and the same
input without the trailing day-unit marker parses to the same value. -/
theorem C7_parsing_examples :
    SolarDate.from_str ("2021年10月15日".toList) = .ok ⟨2021, 10, 15⟩ ∧
    SolarDate.from_str ("二〇二一年十月十五日".toList) = .ok ⟨2021, 10, 15⟩ ∧
    SolarDate.from_str ("2021年10月15".toList) = .ok ⟨2021, 10, 15⟩ :=
  ⟨rfl, rfl, rfl⟩

/-- Claim C8: in `from_naive_date`, for a calendrically valid external date
with year in [0, 65535], the unwrapped Month and Day constructions never fail
(the panic branch, modelled by `none`, is unreachable). -/
theorem C8_unwraps_never_fail : ∀ nd : NaiveDate, nd.Valid →
    0 ≤ nd.year → nd.year ≤ 65535 → (SolarDate.from_naive_date nd).isSome = true := by
  intro nd hv ha hb
  obtain ⟨h1, h2, h3, h4⟩ := hv
  have hnr : ¬(nd.year < 0 ∨ (65535 : Int) < nd.year) := by omega
  have hmu : SolarMonth.from_u8 nd.month = some nd.month := by
    unfold SolarMonth.from_u8
    rw [if_pos ⟨h1, h2⟩]
  have hdu : SolarDay.from_u8 nd.day = some nd.day := by
    unfold SolarDay.from_u8
    rw [if_pos ⟨h3, le_trans h4 (naive_days_in_month_le_31 nd.year nd.month)⟩]
  unfold SolarDate.from_naive_date
  rw [if_neg hnr]
  simp only [hmu, hdu]
  rfl

/-- Witness for claim C8: the conversion of 2021-10-15 reaches no panic. -/
theorem C8_witness : (SolarDate.from_naive_date ⟨2021, 10, 15⟩).isSome = true :=
  C8_unwraps_never_fail ⟨2021, 10, 15⟩ (by decide) (by decide) (by decide)

/-- Claim C9: the default stringification equals the Chinese-language
rendering, and differs from the numeric rendering. -/
theorem C9_display_is_chinese : ∀ sd : SolarDate,
    SolarDate.display sd = SolarDate.to_chinese_string sd ∧
    SolarDate.display sd ≠ SolarDate.to_string sd := by
  intro sd
  refine ⟨rfl, ?_⟩
  intro he
  have hmem : '日' ∈ SolarDate.to_string sd := by
    rw [← he]
    exact mem_day_to_chinese sd
  have hascii := to_string_ascii sd '日' hmem
  exact absurd hascii (by decide)

/-- Claim C10: converting a valid `SolarDate` to the external naive date and
back round-trips to an equal value. -/
theorem C10_naive_roundtrip : ∀ sd : SolarDate, sd.Valid →
    SolarDate.from_naive_date (SolarDate.to_naive_date sd) = some (.ok sd) := by
  intro sd hv
  obtain ⟨y, m, d⟩ := sd
  obtain ⟨hy, hm1, hm2, hd1, hd2⟩ := hv
  have hy2 : y ≤ 65535 := hy
  have hd31 : d ≤ 31 := le_trans hd2 (days_in_a_solar_month_le_31 y m)
  have hmu : SolarMonth.from_u8 m = some m := by
    unfold SolarMonth.from_u8
    rw [if_pos ⟨hm1, hm2⟩]
  have hdu : SolarDay.from_u8 d = some d := by
    unfold SolarDay.from_u8
    rw [if_pos ⟨hd1, hd31⟩]
  have hnr : ¬((y : Int) < 0 ∨ (65535 : Int) < (y : Int)) := by omega
  show SolarDate.from_naive_date ⟨(y : Int), m, d⟩ = some (.ok ⟨y, m, d⟩)
  unfold SolarDate.from_naive_date
  rw [if_neg hnr]
  simp only [hmu, hdu]
  simp

/-- Witness for claim C10: the round trip at 2021-10-15. -/
theorem C10_witness :
    SolarDate.from_naive_date (SolarDate.to_naive_date ⟨2021, 10, 15⟩) =
      some (.ok ⟨2021, 10, 15⟩) :=
  C10_naive_roundtrip ⟨2021, 10, 15⟩ (by decide)

